import Mathlib

/-!
Verification of the bens-facts-bot repository: a Discord webhook handler
that persists a list of text facts with an enabled flag to a JSON file.

The embedding follows the source files directly:
- the fact store (`getFacts`, `storeFact`, `storeFacts`) from the server file;
- the access guard (`validateUserAccess`);
- the interaction router (`route`), covering the PING, APPLICATION_COMMAND,
  MODAL_SUBMIT and MESSAGE_COMPONENT branches and the unknown-type fallback.

File content is modelled at the granularity of parsed JSON values: the
backing file is either missing, holds content that JSON.parse rejects
(`corrupt`), or holds a well-formed array of fact records (`stored`).
JSON serialisation of a fact array followed by parsing is modelled as the
identity, which is faithful for the flat string/boolean records the code
writes.
-/

namespace BensFacts

/-- A stored fact record: the JSON object with keys `fact` and
`is_enabled` written to and read from the facts file. -/
structure Fact where
  fact : String
  is_enabled : Bool
  deriving DecidableEq, Repr

/-- State of the backing facts file. `corrupt` stands for any content that
JSON.parse rejects. -/
inductive FileState where
  | missing
  | corrupt
  | stored (facts : List Fact)
  deriving DecidableEq, Repr

/-- Reading plus parsing the facts file, as in the body of the
try-block of `getFacts`: `fs.readFile` rejects when the file is missing and
`JSON.parse` throws on unparseable content. -/
def readFactsFile : FileState → Except String (List Fact)
  | .missing => .error "ENOENT: no such file or directory"
  | .corrupt => .error "SyntaxError: Unexpected token"
  | .stored facts => .ok facts

/-- `getFacts` from the server file: reads and parses the facts file,
and on any failure catches the error and returns the empty list. The
total return type records that no error escapes to the caller. -/
def getFacts (fs : FileState) : List Fact :=
  match readFactsFile fs with
  | .ok facts => facts
  | .error _ => []

/-- One `map.set` step of the JavaScript `Map` built by `new Map(pairs)`:
setting an existing key replaces its value in place, a new key is
appended at the end. -/
def mapInsert (m : List (String × Fact)) (k : String) (v : Fact) :
    List (String × Fact) :=
  if m.any (fun p => p.1 == k) then
    m.map (fun p => if p.1 == k then (k, v) else p)
  else
    m ++ [(k, v)]

/-- `new Map(pairs)` in JavaScript: insert the key-value pairs in order,
later pairs with the same key overwriting earlier values while keeping
the position of the first occurrence of the key. -/
def mapFromPairs (ps : List (String × Fact)) : List (String × Fact) :=
  ps.foldl (fun m p => mapInsert m p.1 p.2) []

/-- The deduplicating merge inside `storeFact`: the stored facts keyed by
text, followed by the new entry, collapsed through a `Map` and read back
out as `Array.from(map.values())`. -/
def storeFactList (facts : List Fact) (newFact : String) (is_enabled : Bool) :
    List Fact :=
  (mapFromPairs
      ((facts.map (fun f => (f.fact, f))) ++ [(newFact, ⟨newFact, is_enabled⟩)])).map
    Prod.snd

/-- `storeFact` from the server file: load all facts, merge in the new
entry keyed by text (last write wins), write the deduplicated collection
back wholesale. The second argument defaults to `true` as in the source. -/
def storeFact (fs : FileState) (newFact : String) (is_enabled : Bool := true) :
    FileState :=
  .stored (storeFactList (getFacts fs) newFact is_enabled)

/-- The recomputation inside `storeFacts`: every stored fact keeps its
text and gets `is_enabled` set to membership of the selected set, then
the collection is collapsed through a `Map` keyed by text. Membership in
the JavaScript `Set` built from the argument array is string equality,
i.e. `List.contains`. -/
def storeFactsList (facts : List Fact) (newFacts : List String) : List Fact :=
  (mapFromPairs
      (facts.map (fun f => (f.fact, ⟨f.fact, newFacts.contains f.fact⟩)))).map
    Prod.snd

/-- `storeFacts` from the server file: load all facts, set the enabled flag of each
fact to membership of the selected values, write the collection
back wholesale. -/
def storeFacts (fs : FileState) (newFacts : List String) : FileState :=
  .stored (storeFactsList (getFacts fs) newFacts)

/-- ASCII case folding of one character, as JavaScript
`String.prototype.toLowerCase` behaves on the ASCII command names this
program compares. -/
def toLowerChar (c : Char) : Char :=
  if 65 ≤ c.toNat ∧ c.toNat ≤ 90 then Char.ofNat (c.toNat + 32) else c

/-- `name.toLowerCase()` as applied by the router to command names,
modelled on ASCII strings character by character. -/
def toLowerCase (s : String) : String :=
  ⟨s.data.map toLowerChar⟩

/-- Command metadata, as in the commands module (`name` is what the
switch in the router compares against after lowercasing both sides). -/
structure Command where
  name : String
  description : String
  deriving DecidableEq, Repr

/-- `ADD_COMMAND` from the commands module. -/
def ADD_COMMAND : Command :=
  ⟨"add", "Add a Ben\x27s Fact!"⟩

/-- `SELECT_COMMAND` from the commands module imported by the server. -/
def SELECT_COMMAND : Command :=
  ⟨"select", "Select which of Ben\x27s Facts to use!"⟩

/-- `LIST_COMMAND` from the commands module variant in `src/commands.js`,
declared for runtime and registration use but never dispatched on by the
router. -/
def LIST_COMMAND : Command :=
  ⟨"list", "List Ben\x27s Facts!"⟩

/-- `InteractionResponseFlags.EPHEMERAL` from the discord-interactions
library: the bit marking a response visible only to the invoking user. -/
def EPHEMERAL : Nat := 64

/-- One option object of the string-select component built by the select
branch: `label` and `value` are the fact text, `default` its enabled flag. -/
structure SelectOption where
  label : String
  value : String
  default : Bool
  deriving DecidableEq, Repr

/-- The response payloads the router can produce, one constructor per
JSON shape in the source. `flags` is present exactly where the source
object has a `flags` key; the modal form response carries none. -/
inductive Rsp where
  | pong
  | modalForm (custom_id title input_custom_id label : String)
      (min_length max_length : Nat) (required : Bool)
  | selectPrompt (custom_id placeholder : String) (min_values max_values : Nat)
      (options : List SelectOption) (flags : Option Nat)
  | message (content : String) (flags : Option Nat)
  | errorRsp (status : Nat) (error : String)
  deriving DecidableEq, Repr

/-- `validateUserAccess` from the server file: `none` models the
JavaScript function falling through (returning `undefined`, i.e. access
allowed); `some r` models it returning the 403 JSON response `r`. -/
def validateUserAccess (username : String) : Option Rsp :=
  if (["LuggageMoose", "encryptoknight"] : List String).contains username then
    none
  else
    some (.errorRsp 403 "Invalid user access")

/-- An inbound interaction after signature verification, restricted to
the fields the router reads: the type tag, `member.user.username`, and
the command name, submitted modal value, or selected component values.
`other` stands for any further interaction type, on which the router
reads no field. -/
inductive Interaction where
  | ping
  | applicationCommand (username : String) (name : String)
  | modalSubmit (username : String) (value : String)
  | messageComponent (username : String) (values : List String)
  | other
  deriving DecidableEq, Repr

/-- The username the router would read from an interaction, when that
branch reads one. -/
def usernameOf : Interaction → Option String
  | .ping => none
  | .applicationCommand u _ => some u
  | .modalSubmit u _ => some u
  | .messageComponent u _ => some u
  | .other => none

/-- Accesses of the backing facts file performed while handling one
interaction, in order. -/
inductive StoreOp where
  | read
  | write
  deriving DecidableEq, Repr

/-- The `router.post` handler from the server file, after signature
verification succeeded, as a function of the parsed interaction and the
facts-file state. Returns the response, the facts-file state afterwards,
and the file accesses performed. Branch order and every literal follow
the source. -/
def route (i : Interaction) (fs : FileState) : Rsp × FileState × List StoreOp :=
  match i with
  | .ping => (.pong, fs, [])
  | .applicationCommand username name =>
    match validateUserAccess username with
    | some r => (r, fs, [])
    | none =>
      if toLowerCase name = toLowerCase ADD_COMMAND.name then
        (.modalForm "fact_modal" "Add a cool Ben\x27s Fact!" "fact"
            "A cool Ben\x27s Fact" 1 1000 true,
          fs, [])
      else if toLowerCase name = toLowerCase SELECT_COMMAND.name then
        let facts := getFacts fs
        (.selectPrompt "select_facts"
            "Choose which of Ben\x27s facts will make the cut!"
            1 facts.length
            (facts.map (fun f => ⟨f.fact, f.fact, f.is_enabled⟩))
            (some EPHEMERAL),
          fs, [.read])
      else
        (.errorRsp 400 "Unknown Type", fs, [])
  | .modalSubmit username value =>
    match validateUserAccess username with
    | some r => (r, fs, [])
    | none =>
      (.message "Fact added! They better hold on to their butts..."
          (some EPHEMERAL),
        storeFact fs value, [.read, .write])
  | .messageComponent username values =>
    match validateUserAccess username with
    | some r => (r, fs, [])
    | none =>
      (.message "Facts updated!" (some EPHEMERAL),
        storeFacts fs values, [.read, .write])
  | .other => (.errorRsp 400 "Unknown Type", fs, [])

/-- Whether a response is the PONG handshake acknowledgment. -/
def isPong : Rsp → Bool
  | .pong => true
  | _ => false

/-- Whether a response is one of the structured error responses. -/
def isError : Rsp → Bool
  | .errorRsp _ _ => true
  | _ => false

/-- Whether a response is the modal form prompt. -/
def isModal : Rsp → Bool
  | .modalForm _ _ _ _ _ _ _ => true
  | _ => false

/-- Whether a response object carries the ephemeral flag, i.e. has a
`flags` key holding `InteractionResponseFlags.EPHEMERAL`. -/
def hasEphemeralFlag : Rsp → Bool
  | .selectPrompt _ _ _ _ _ flags => flags == some EPHEMERAL
  | .message _ flags => flags == some EPHEMERAL
  | _ => false

/-- The enabled argument of the most recent call for a given text in a
list of (text, enabled) call descriptions, `none` when no call mentions
the text. Later list entries are more recent. -/
def lastEnabled : List (String × Bool) → String → Option Bool
  | [], _ => none
  | c :: cs, t =>
    match lastEnabled cs t with
    | some e => some e
    | none => if c.1 = t then some c.2 else none

/-- Running a sequence of `storeFact` calls against the facts file, in
order. -/
def runAdds (fs : FileState) (calls : List (String × Bool)) : FileState :=
  calls.foldl (fun acc c => storeFact acc c.1 c.2) fs

/-- The pure effect of a sequence of `storeFact` merges on the fact
list. -/
def runAddsList (s : List Fact) (calls : List (String × Bool)) : List Fact :=
  calls.foldl (fun acc c => storeFactList acc c.1 c.2) s

lemma mapInsert_of_not_mem (m : List (String × Fact)) (k : String) (v : Fact)
    (h : ∀ p ∈ m, p.1 ≠ k) : mapInsert m k v = m ++ [(k, v)] := by
  have hany : m.any (fun p => p.1 == k) = false := by
    simp only [List.any_eq_false, beq_iff_eq]
    exact h
  simp [mapInsert, hany]

lemma foldl_mapInsert_eq_append :
    ∀ (ps m : List (String × Fact)),
      ((m.map Prod.fst) ++ (ps.map Prod.fst)).Nodup →
      ps.foldl (fun acc p => mapInsert acc p.1 p.2) m = m ++ ps := by
  intro ps
  induction ps with
  | nil => intro m _; simp
  | cons p ps ih =>
    intro m h
    have hd : (m.map Prod.fst).Disjoint (p.1 :: ps.map Prod.fst) :=
      (List.nodup_append.mp (by simpa using h)).2.2
    have hp : ∀ q ∈ m, q.1 ≠ p.1 := by
      intro q hq hqe
      exact hd (List.mem_map_of_mem Prod.fst hq) (hqe ▸ List.mem_cons_self _ _)
    have hins : mapInsert m p.1 p.2 = m ++ [p] := by
      rw [mapInsert_of_not_mem m p.1 p.2 hp]
    rw [List.foldl_cons, hins, ih (m ++ [p]) (by simpa [List.append_assoc] using h)]
    simp

lemma mapFromPairs_of_nodup (ps : List (String × Fact))
    (h : (ps.map Prod.fst).Nodup) : mapFromPairs ps = ps := by
  simpa [mapFromPairs] using foldl_mapInsert_eq_append ps [] (by simpa using h)

lemma any_fst_pairs (s : List Fact) (k : String) :
    ((s.map (fun f => (f.fact, f))).any fun p => p.1 == k) =
      s.any fun f => f.fact == k := by
  induction s with
  | nil => rfl
  | cons f fs ih => simp [List.any_cons, ih]

lemma storeFactList_eq_of_nodup (s : List Fact) (k : String) (e : Bool)
    (h : (s.map Fact.fact).Nodup) :
    storeFactList s k e =
      if s.any (fun f => f.fact == k) then
        s.map (fun f => if f.fact == k then ⟨k, e⟩ else f)
      else
        s ++ [⟨k, e⟩] := by
  have hkeys : (s.map (fun f => (f.fact, f))).map Prod.fst = s.map Fact.fact := by
    simp [List.map_map, Function.comp]
  have hmfp : mapFromPairs (s.map (fun f => (f.fact, f))) =
      s.map (fun f => (f.fact, f)) :=
    mapFromPairs_of_nodup _ (by rw [hkeys]; exact h)
  have hsplit : mapFromPairs ((s.map (fun f => (f.fact, f))) ++ [(k, ⟨k, e⟩)]) =
      mapInsert (mapFromPairs (s.map (fun f => (f.fact, f)))) k ⟨k, e⟩ := by
    simp [mapFromPairs, List.foldl_append]
  unfold storeFactList
  rw [hsplit, hmfp]
  unfold mapInsert
  rw [any_fst_pairs]
  by_cases hc : s.any (fun f => f.fact == k) = true
  · rw [if_pos hc, if_pos hc]
    simp only [List.map_map]
    apply List.map_congr_left
    intro f _
    by_cases hfk : f.fact == k
    · simp [Function.comp, hfk]
    · simp [Function.comp, hfk]
  · rw [if_neg hc, if_neg hc]
    simp only [List.map_append, List.map_map]
    have hid : (Prod.snd ∘ fun f : Fact => (f.fact, f)) = id := rfl
    rw [hid, List.map_id]
    simp

lemma any_texts_iff (s : List Fact) (k : String) :
    s.any (fun f => f.fact == k) = true ↔ k ∈ s.map Fact.fact := by
  simp only [List.any_eq_true, List.mem_map, beq_iff_eq]

lemma texts_map_overwrite (s : List Fact) (k : String) (e : Bool) :
    (s.map (fun f => if f.fact == k then (⟨k, e⟩ : Fact) else f)).map Fact.fact =
      s.map Fact.fact := by
  simp only [List.map_map]
  apply List.map_congr_left
  intro f _
  simp only [Function.comp]
  by_cases hfk : f.fact == k
  · have hk : f.fact = k := beq_iff_eq.mp hfk
    simp [hfk, hk]
  · simp [hfk]

lemma storeFactList_texts_nodup (s : List Fact) (k : String) (e : Bool)
    (h : (s.map Fact.fact).Nodup) :
    ((storeFactList s k e).map Fact.fact).Nodup := by
  rw [storeFactList_eq_of_nodup s k e h]
  by_cases hc : s.any (fun f => f.fact == k) = true
  · rw [if_pos hc, texts_map_overwrite]
    exact h
  · rw [if_neg hc, List.map_append, List.nodup_append]
    refine ⟨h, List.nodup_singleton _, ?_⟩
    intro a ha hb
    have hak : a = k := by simpa using hb
    subst hak
    exact hc ((any_texts_iff s a).mpr ha)

lemma mem_storeFactList_texts (s : List Fact) (k : String) (e : Bool) (t : String)
    (h : (s.map Fact.fact).Nodup) :
    t ∈ (storeFactList s k e).map Fact.fact ↔ t = k ∨ t ∈ s.map Fact.fact := by
  rw [storeFactList_eq_of_nodup s k e h]
  by_cases hc : s.any (fun f => f.fact == k) = true
  · rw [if_pos hc, texts_map_overwrite]
    constructor
    · exact Or.inr
    · rintro (rfl | ht)
      · exact (any_texts_iff s t).mp hc
      · exact ht
  · rw [if_neg hc, List.map_append, List.mem_append]
    simp [or_comm]

lemma storeFactList_entry_eq (s : List Fact) (k : String) (e : Bool)
    (h : (s.map Fact.fact).Nodup) :
    ∀ f ∈ storeFactList s k e, (f.fact = k → f = ⟨k, e⟩) ∧ (f.fact ≠ k → f ∈ s) := by
  rw [storeFactList_eq_of_nodup s k e h]
  by_cases hc : s.any (fun f => f.fact == k) = true
  · rw [if_pos hc]
    intro f hf
    obtain ⟨f0, hf0, rfl⟩ := List.mem_map.mp hf
    by_cases hfk : f0.fact == k
    · rw [if_pos hfk]
      exact ⟨fun _ => rfl, fun hne => absurd rfl hne⟩
    · rw [if_neg hfk]
      have hne : f0.fact ≠ k := by simpa using hfk
      exact ⟨fun hfact => absurd hfact hne, fun _ => hf0⟩
  · rw [if_neg hc]
    intro f hf
    rcases List.mem_append.mp hf with hf | hf
    · refine ⟨fun hfact => ?_, fun _ => hf⟩
      exact absurd ((any_texts_iff s k).mpr (List.mem_map.mpr ⟨f, hf, hfact⟩)) hc
    · have hfe : f = ⟨k, e⟩ := by simpa using hf
      subst hfe
      exact ⟨fun _ => rfl, fun hne => absurd rfl hne⟩

lemma storeFactsList_eq_of_nodup (s : List Fact) (sel : List String)
    (h : (s.map Fact.fact).Nodup) :
    storeFactsList s sel = s.map (fun f => ⟨f.fact, sel.contains f.fact⟩) := by
  unfold storeFactsList
  have hkeys :
      ((s.map (fun f => (f.fact, (⟨f.fact, sel.contains f.fact⟩ : Fact)))).map
          Prod.fst) = s.map Fact.fact := by
    simp [List.map_map, Function.comp]
  rw [mapFromPairs_of_nodup _ (by rw [hkeys]; exact h)]
  simp [List.map_map, Function.comp]

lemma lastEnabled_eq_none_iff (cs : List (String × Bool)) (t : String) :
    lastEnabled cs t = none ↔ t ∉ cs.map Prod.fst := by
  induction cs with
  | nil => simp [lastEnabled]
  | cons c cs ih =>
    rcases hcs : lastEnabled cs t with _ | e
    · have ht : t ∉ cs.map Prod.fst := ih.mp hcs
      by_cases hct : c.1 = t
      · simp [lastEnabled, hcs, hct]
      · have hct' : t ≠ c.1 := fun hh => hct hh.symm
        simp [lastEnabled, hcs, hct, hct', ht]
    · have hmem : t ∈ cs.map Prod.fst := by
        by_contra hmem
        rw [ih.mpr hmem] at hcs
        exact Option.noConfusion hcs
      simp [lastEnabled, hcs, hmem]

lemma runAddsList_spec :
    ∀ (calls : List (String × Bool)) (s : List Fact),
      (s.map Fact.fact).Nodup →
      (((runAddsList s calls).map Fact.fact).Nodup ∧
       (∀ t, t ∈ (runAddsList s calls).map Fact.fact ↔
          t ∈ calls.map Prod.fst ∨ t ∈ s.map Fact.fact) ∧
       (∀ f ∈ runAddsList s calls, ∀ e, lastEnabled calls f.fact = some e →
          f.is_enabled = e) ∧
       (∀ f ∈ runAddsList s calls, lastEnabled calls f.fact = none → f ∈ s)) := by
  intro calls
  induction calls with
  | nil =>
    intro s h
    refine ⟨h, ?_, ?_, ?_⟩
    · intro t; simp [runAddsList]
    · intro f _ e he
      simp [lastEnabled] at he
    · intro f hf _
      exact hf
  | cons c cs ih =>
    intro s h
    have h' : ((storeFactList s c.1 c.2).map Fact.fact).Nodup :=
      storeFactList_texts_nodup s c.1 c.2 h
    obtain ⟨ihnd, ihmem, ihsome, ihnone⟩ := ih (storeFactList s c.1 c.2) h'
    have hrw : runAddsList s (c :: cs) = runAddsList (storeFactList s c.1 c.2) cs :=
      rfl
    refine ⟨hrw ▸ ihnd, ?_, ?_, ?_⟩
    · intro t
      rw [hrw, ihmem t, mem_storeFactList_texts s c.1 c.2 t h]
      simp only [List.map_cons, List.mem_cons]
      tauto
    · intro f hf e he
      rw [hrw] at hf
      rcases hcs : lastEnabled cs f.fact with _ | e'
      · have hf_s' := ihnone f hf hcs
        have he' : (if c.1 = f.fact then some c.2 else none) = some e := by
          simpa [lastEnabled, hcs] using he
        by_cases hck : c.1 = f.fact
        · rw [if_pos hck] at he'
          have he2 : c.2 = e := Option.some.inj he'
          have hfe : f = ⟨c.1, c.2⟩ :=
            (storeFactList_entry_eq s c.1 c.2 h f hf_s').1 hck.symm
          rw [hfe]
          exact he2
        · rw [if_neg hck] at he'
          exact Option.noConfusion he'
      · have hle : lastEnabled (c :: cs) f.fact = some e' := by
          simp [lastEnabled, hcs]
        rw [hle] at he
        have hee : e' = e := Option.some.inj he
        subst hee
        exact ihsome f hf e' hcs
    · intro f hf hnone
      rw [hrw] at hf
      rcases hcs : lastEnabled cs f.fact with _ | e'
      · have hf_s' := ihnone f hf hcs
        have hne : c.1 ≠ f.fact := by
          intro hck
          have hle : lastEnabled (c :: cs) f.fact = some c.2 := by
            simp [lastEnabled, hcs, hck]
          rw [hle] at hnone
          exact Option.noConfusion hnone
        exact (storeFactList_entry_eq s c.1 c.2 h f hf_s').2 (fun hfk => hne hfk.symm)
      · have hle : lastEnabled (c :: cs) f.fact = some e' := by
          simp [lastEnabled, hcs]
        rw [hle] at hnone
        exact Option.noConfusion hnone

lemma getFacts_runAdds_stored :
    ∀ (calls : List (String × Bool)) (l : List Fact),
      getFacts (runAdds (.stored l) calls) = runAddsList l calls := by
  intro calls
  induction calls with
  | nil => intro l; rfl
  | cons c cs ih =>
    intro l
    have hstep : runAdds (.stored l) (c :: cs) =
        runAdds (.stored (storeFactList l c.1 c.2)) cs := rfl
    rw [hstep, ih]
    rfl

example : storeFactList [⟨"a", true⟩] "a" false = [⟨"a", false⟩] := by decide
example : storeFactList [⟨"a", true⟩] "b" false = [⟨"a", true⟩, ⟨"b", false⟩] := by
  decide
example : storeFactsList [⟨"A", true⟩, ⟨"B", false⟩] ["B"] =
    [⟨"A", false⟩, ⟨"B", true⟩] := by decide
example : toLowerCase "ADD" = "add" := by decide
example : toLowerCase "Select" = "select" := by decide

lemma validateUserAccess_eq_some (u : String) (r : Rsp)
    (h : validateUserAccess u = some r) :
    r = .errorRsp 403 "Invalid user access" := by
  unfold validateUserAccess at h
  split at h
  · exact Option.noConfusion h
  · exact (Option.some.inj h).symm

/-- C1: running any sequence of `storeFact` calls with texts t1..tn
(possibly repeating, enabled defaulting to `true` at the call sites in
the router) against any stored collection whose texts lie among t1..tn
leaves the store holding exactly the distinct texts among t1..tn, each
fact carrying the enabled argument of the most recent call for its
text. -/
theorem addOne_sequence_spec (init : List Fact) (calls : List (String × Bool))
    (hnd : (init.map Fact.fact).Nodup)
    (hsub : ∀ t ∈ init.map Fact.fact, t ∈ calls.map Prod.fst) :
    ((getFacts (runAdds (.stored init) calls)).map Fact.fact).Nodup ∧
    (∀ t, t ∈ (getFacts (runAdds (.stored init) calls)).map Fact.fact ↔
      t ∈ calls.map Prod.fst) ∧
    (∀ f ∈ getFacts (runAdds (.stored init) calls),
      lastEnabled calls f.fact = some f.is_enabled) := by
  rw [getFacts_runAdds_stored]
  obtain ⟨h1, h2, h3, h4⟩ := runAddsList_spec calls init hnd
  refine ⟨h1, ?_, ?_⟩
  · intro t
    rw [h2 t]
    constructor
    · rintro (ht | ht)
      · exact ht
      · exact hsub t ht
    · exact Or.inl
  · intro f hf
    rcases hcs : lastEnabled calls f.fact with _ | e
    · exfalso
      have hfin : f ∈ init := h4 f hf hcs
      have hmem : f.fact ∈ calls.map Prod.fst :=
        hsub f.fact (List.mem_map_of_mem Fact.fact hfin)
      exact ((lastEnabled_eq_none_iff calls f.fact).mp hcs) hmem
    · rw [h3 f hf e hcs]

/-- Witness for C1 at the empty initial store and the call sequence
add "a" (enabled), add "b" (disabled), add "a" (disabled). -/
theorem addOne_sequence_spec_witness :
    ((([] : List Fact).map Fact.fact).Nodup ∧
     (∀ t ∈ ([] : List Fact).map Fact.fact,
        t ∈ ([("a", true), ("b", false), ("a", false)] :
            List (String × Bool)).map Prod.fst)) ∧
    (((getFacts (runAdds (.stored [])
          [("a", true), ("b", false), ("a", false)])).map Fact.fact).Nodup ∧
     (∀ t, t ∈ (getFacts (runAdds (.stored [])
          [("a", true), ("b", false), ("a", false)])).map Fact.fact ↔
        t ∈ ([("a", true), ("b", false), ("a", false)] :
            List (String × Bool)).map Prod.fst) ∧
     (∀ f ∈ getFacts (runAdds (.stored [])
          [("a", true), ("b", false), ("a", false)]),
        lastEnabled [("a", true), ("b", false), ("a", false)] f.fact =
          some f.is_enabled)) :=
  ⟨⟨by decide, by decide⟩,
   addOne_sequence_spec [] [("a", true), ("b", false), ("a", false)]
     (by decide) (by decide)⟩

/-- C2: on a stored collection (unique by text, per the data-model
invariant), `storeFacts` rewrites the enabled flag of every fact to
membership of the selected set and leaves the sequence of texts
unchanged: no fact is added, removed or reordered. -/
theorem setEnabledSet_spec (facts : List Fact) (sel : List String)
    (h : (facts.map Fact.fact).Nodup) :
    getFacts (storeFacts (.stored facts) sel) =
        facts.map (fun f => ⟨f.fact, sel.contains f.fact⟩) ∧
    (getFacts (storeFacts (.stored facts) sel)).map Fact.fact =
        facts.map Fact.fact := by
  have h1 : getFacts (storeFacts (.stored facts) sel) = storeFactsList facts sel :=
    rfl
  rw [h1, storeFactsList_eq_of_nodup facts sel h]
  refine ⟨rfl, ?_⟩
  simp [List.map_map, Function.comp]

/-- Witness for C2 at the spec scenario: facts A(enabled), B(disabled)
with selection containing only B yield A(disabled), B(enabled), in the
stored order. -/
theorem setEnabledSet_spec_witness :
    ((([⟨"A", true⟩, ⟨"B", false⟩] : List Fact).map Fact.fact).Nodup) ∧
    getFacts (storeFacts (.stored [⟨"A", true⟩, ⟨"B", false⟩]) ["B"]) =
      [⟨"A", false⟩, ⟨"B", true⟩] :=
  ⟨by decide,
   by exact (setEnabledSet_spec [⟨"A", true⟩, ⟨"B", false⟩] ["B"] (by decide)).1⟩

/-- C3: when the facts file is missing or its content does not parse as
JSON, `getFacts` returns the empty list; the failure is caught inside
`getFacts`, whose total return type records that no error reaches the
caller. -/
theorem getFacts_failure (fs : FileState)
    (h : fs = .missing ∨ fs = .corrupt) : getFacts fs = [] := by
  rcases h with rfl | rfl <;> rfl

/-- Witness for C3 at the missing-file state. -/
theorem getFacts_failure_witness :
    ((FileState.missing = FileState.missing ∨
      FileState.missing = FileState.corrupt)) ∧
    getFacts .missing = [] :=
  ⟨Or.inl rfl, getFacts_failure .missing (Or.inl rfl)⟩

/-- C4: the access guard lets exactly the usernames "LuggageMoose" and
"encryptoknight" through (returning `none`, modelling the JavaScript
function falling through so the caller proceeds) and answers every
other string, including the empty string, with the 403 response. -/
theorem validateUserAccess_spec (u : String) :
    validateUserAccess u =
      if u = "LuggageMoose" ∨ u = "encryptoknight" then none
      else some (.errorRsp 403 "Invalid user access") := by
  by_cases h1 : u = "LuggageMoose"
  · subst h1; decide
  · by_cases h2 : u = "encryptoknight"
    · subst h2; decide
    · have hmem : ¬ (u ∈ (["LuggageMoose", "encryptoknight"] : List String)) := by
        simp [h1, h2]
      have hor : ¬ (u = "LuggageMoose" ∨ u = "encryptoknight") := by
        rintro (rfl | rfl) <;> simp at hmem
      rw [if_neg hor]
      unfold validateUserAccess
      rw [if_neg (by simpa using hmem)]

/-- C5: a non-PING interaction from a username the guard denies gets
the 403 "Invalid user access" response, the facts file is neither read
nor written (empty access trace), and the file state is unchanged. -/
theorem denied_user_rejected (i : Interaction) (fs : FileState) (u : String)
    (hu : usernameOf i = some u)
    (hd : validateUserAccess u ≠ none) :
    route i fs = (.errorRsp 403 "Invalid user access", fs, []) := by
  have hr : validateUserAccess u = some (.errorRsp 403 "Invalid user access") := by
    rcases hv : validateUserAccess u with _ | r
    · exact absurd hv hd
    · have hre := validateUserAccess_eq_some u r hv
      subst hre
      rfl
  cases i with
  | ping => exact Option.noConfusion hu
  | applicationCommand u0 name =>
    have hu0 : u0 = u := Option.some.inj hu
    subst hu0
    simp [route, hr]
  | modalSubmit u0 v =>
    have hu0 : u0 = u := Option.some.inj hu
    subst hu0
    simp [route, hr]
  | messageComponent u0 vs =>
    have hu0 : u0 = u := Option.some.inj hu
    subst hu0
    simp [route, hr]
  | other => exact Option.noConfusion hu

/-- Witness for C5: a denied user submitting a component selection is
rejected without any file access. -/
theorem denied_user_rejected_witness :
    (usernameOf (.messageComponent "mallory" ["x"]) = some "mallory" ∧
     validateUserAccess "mallory" ≠ none) ∧
    route (.messageComponent "mallory" ["x"]) (.stored [⟨"a", true⟩]) =
      (.errorRsp 403 "Invalid user access", .stored [⟨"a", true⟩], []) :=
  ⟨⟨rfl, by decide⟩,
   denied_user_rejected (.messageComponent "mallory" ["x"])
     (.stored [⟨"a", true⟩]) "mallory" rfl (by decide)⟩

/-- C6: a "select" command from an allowed user yields the string-select
prompt with one option per stored fact, label and value both the fact
text, default its enabled flag, min_values 1 and max_values the number
of stored facts. -/
theorem select_command_spec (u : String) (fs : FileState)
    (hu : validateUserAccess u = none) :
    route (.applicationCommand u "select") fs =
      (.selectPrompt "select_facts"
          "Choose which of Ben\x27s facts will make the cut!"
          1 (getFacts fs).length
          ((getFacts fs).map (fun f => ⟨f.fact, f.fact, f.is_enabled⟩))
          (some EPHEMERAL),
        fs, [.read]) := by
  simp only [route, hu]
  rw [if_neg (by decide : ¬ (toLowerCase "select" = toLowerCase ADD_COMMAND.name)),
    if_pos (by decide : toLowerCase "select" = toLowerCase SELECT_COMMAND.name)]

/-- Witness for C6 at the spec scenario: the single stored fact
"Ben likes tea" (enabled) yields one option with matching label, value
and default, min_values 1 and max_values 1. -/
theorem select_command_spec_witness :
    validateUserAccess "LuggageMoose" = none ∧
    route (.applicationCommand "LuggageMoose" "select")
        (.stored [⟨"Ben likes tea", true⟩]) =
      (.selectPrompt "select_facts"
          "Choose which of Ben\x27s facts will make the cut!"
          1 1 [⟨"Ben likes tea", "Ben likes tea", true⟩] (some EPHEMERAL),
        .stored [⟨"Ben likes tea", true⟩], [.read]) :=
  ⟨by decide,
   select_command_spec "LuggageMoose" (.stored [⟨"Ben likes tea", true⟩])
     (by decide)⟩

/-- C7: the command name "list", declared in the commands module as
`LIST_COMMAND` for runtime use, is not handled by the router: an
allowed user issuing it falls through the switch to the
"Unknown Type" 400 error instead of any listing response. -/
theorem list_command_not_served :
    route (.applicationCommand "LuggageMoose" LIST_COMMAND.name)
        (.stored [⟨"Ben likes tea", true⟩]) =
      (.errorRsp 400 "Unknown Type", .stored [⟨"Ben likes tea", true⟩], []) := by
  decide

/-- C8 counterexample: the "add" command response from an allowed user
is neither the PONG acknowledgment nor an error response, yet carries
no ephemeral flag (the modal response object has no flags key). -/
theorem add_command_modal_lacks_ephemeral :
    isPong (route (.applicationCommand "LuggageMoose" "add") (.stored [])).1 =
        false ∧
    isError (route (.applicationCommand "LuggageMoose" "add") (.stored [])).1 =
        false ∧
    hasEphemeralFlag
        (route (.applicationCommand "LuggageMoose" "add") (.stored [])).1 =
      false := by
  decide

/-- C8 amended: every router response other than the PONG
acknowledgment, the error responses and the modal form prompt of the
"add" command (which carries no flags field) is marked ephemeral; this covers
the select prompt and both confirmation messages. -/
theorem responses_ephemeral_except_add_modal (i : Interaction) (fs : FileState)
    (h1 : isPong (route i fs).1 = false)
    (h2 : isError (route i fs).1 = false)
    (h3 : isModal (route i fs).1 = false) :
    hasEphemeralFlag (route i fs).1 = true := by
  cases i with
  | ping => simp [route, isPong] at h1
  | applicationCommand u name =>
    rcases hv : validateUserAccess u with _ | r
    · by_cases ha : toLowerCase name = toLowerCase ADD_COMMAND.name
      · simp [route, hv, ha, isModal] at h3
      · by_cases hs : toLowerCase name = toLowerCase SELECT_COMMAND.name
        · simp only [route, hv]
          rw [if_neg ha, if_pos hs]
          simp [hasEphemeralFlag]
        · simp [route, hv, ha, hs, isError] at h2
    · rw [validateUserAccess_eq_some u r hv] at hv
      simp [route, hv, isError] at h2
  | modalSubmit u v =>
    rcases hv : validateUserAccess u with _ | r
    · simp [route, hv, hasEphemeralFlag]
    · rw [validateUserAccess_eq_some u r hv] at hv
      simp [route, hv, isError] at h2
  | messageComponent u vs =>
    rcases hv : validateUserAccess u with _ | r
    · simp [route, hv, hasEphemeralFlag]
    · rw [validateUserAccess_eq_some u r hv] at hv
      simp [route, hv, isError] at h2
  | other => simp [route, isError] at h2

/-- Witness for the amended C8 at the modal-submit confirmation. -/
theorem responses_ephemeral_except_add_modal_witness :
    (isPong (route (.modalSubmit "LuggageMoose" "x") .missing).1 = false ∧
     isError (route (.modalSubmit "LuggageMoose" "x") .missing).1 = false ∧
     isModal (route (.modalSubmit "LuggageMoose" "x") .missing).1 = false) ∧
    hasEphemeralFlag (route (.modalSubmit "LuggageMoose" "x") .missing).1 =
      true :=
  ⟨⟨by decide, by decide, by decide⟩,
   responses_ephemeral_except_add_modal (.modalSubmit "LuggageMoose" "x")
     .missing (by decide) (by decide) (by decide)⟩

/-- C9: a store mutation writes the merged collection wholesale and an
immediately following `getFacts` returns exactly that written list (so
in particular the same set of text and enabled pairs), for both
`storeFact` and `storeFacts`. JSON serialisation followed by parsing is
modelled as the identity on fact arrays. -/
theorem store_roundtrip (fs : FileState) (t : String) (e : Bool)
    (sel : List String) :
    getFacts (storeFact fs t e) = storeFactList (getFacts fs) t e ∧
    getFacts (storeFacts fs sel) = storeFactsList (getFacts fs) sel :=
  ⟨rfl, rfl⟩

/-- C10: command dispatch lowercases the inbound name before comparing,
so any name whose lowercase form is "add" or "select" is routed exactly
as the lowercase name, for any allowed user and any file state. -/
theorem command_dispatch_case_insensitive (u n : String) (fs : FileState)
    (hu : validateUserAccess u = none)
    (hn : toLowerCase n = "add" ∨ toLowerCase n = "select") :
    route (.applicationCommand u n) fs =
      route (.applicationCommand u (toLowerCase n)) fs := by
  rcases hn with hn | hn
  · have h1 : toLowerCase n = toLowerCase ADD_COMMAND.name := by rw [hn]; decide
    have h2 : toLowerCase "add" = toLowerCase ADD_COMMAND.name := by decide
    rw [hn]
    simp [route, hu, h1, h2]
  · have h1 : toLowerCase n = toLowerCase SELECT_COMMAND.name := by rw [hn]; decide
    have h2 : ¬ (toLowerCase n = toLowerCase ADD_COMMAND.name) := by
      rw [hn]; decide
    have h3 : toLowerCase "select" = toLowerCase SELECT_COMMAND.name := by decide
    have h4 : ¬ (toLowerCase "select" = toLowerCase ADD_COMMAND.name) := by decide
    rw [hn]
    simp [route, hu, h1, h2, h3, h4]

/-- Witness for C10 at the uppercase command name "ADD". -/
theorem command_dispatch_case_insensitive_witness :
    (validateUserAccess "LuggageMoose" = none ∧
     (toLowerCase "ADD" = "add" ∨ toLowerCase "ADD" = "select")) ∧
    route (.applicationCommand "LuggageMoose" "ADD") .missing =
      route (.applicationCommand "LuggageMoose" (toLowerCase "ADD")) .missing :=
  ⟨⟨by decide, Or.inl (by decide)⟩,
   command_dispatch_case_insensitive "LuggageMoose" "ADD" .missing
     (by decide) (Or.inl (by decide))⟩

end BensFacts
